import Mathlib

/-!
Shallow embedding of the filter, search and sort pipeline of the wholesale
catalog page (components/catalog-page.tsx), together with the facet
derivations, the stock normalizer and the category change handler of the
filter UI. Strings are modelled through their character lists; the
JavaScript string operations used by the page (toLowerCase, trim, includes,
startsWith, split on a whitespace run) are given explicit executable models.
-/

namespace Catalog

/-- Model of the JavaScript toLowerCase call, character by character, for the
ASCII data appearing in the catalog. -/
def jsToLower (s : String) : String := ⟨s.data.map Char.toLower⟩

/-- Model of the JavaScript trim call: drop leading and trailing whitespace. -/
def jsTrim (s : String) : String :=
  ⟨((s.data.dropWhile Char.isWhitespace).reverse.dropWhile Char.isWhitespace).reverse⟩

/-- Model of the JavaScript startsWith call: the first list is an initial
segment of the second. -/
def chStarts : List Char → List Char → Bool
  | [], _ => true
  | _ :: _, [] => false
  | a :: as, b :: bs => a == b && chStarts as bs

/-- Model of the JavaScript includes call: the first list occurs as a
contiguous segment of the second. -/
def chIncl (needle : List Char) : List Char → Bool
  | [] => chStarts needle []
  | b :: bs => chStarts needle (b :: bs) || chIncl needle bs

/-- String level wrapper: strIncludes hay needle holds when needle occurs
inside hay. -/
def strIncludes (hay needle : String) : Bool := chIncl needle.data hay.data

/-- Helper for splitWs; cur holds the reversed current token and inRun
records whether the previous character was whitespace, so that a maximal
whitespace run acts as one separator. -/
def splitWsAux : List Char → List Char → Bool → List (List Char)
  | [], cur, _ => [cur.reverse]
  | c :: cs, cur, inRun =>
    if c.isWhitespace then
      if inRun then splitWsAux cs [] true
      else cur.reverse :: splitWsAux cs [] true
    else
      splitWsAux cs (c :: cur) false

/-- Model of the JavaScript split at a whitespace run: the empty string
yields one empty token, and leading or trailing whitespace yields an empty
boundary token, exactly as the regular expression split does. -/
def splitWs (s : String) : List String := (splitWsAux s.data [] false).map fun cs => ⟨cs⟩

/-- Raw price field: the sheet may deliver a number or a string. -/
inductive PriceInput where
  | num (n : Int)
  | str (s : String)
deriving DecidableEq

/-- Cleaning step of parsePriceString: drop every dollar sign and every dot,
then trim. -/
def cleanPrice (s : String) : String :=
  jsTrim ⟨s.data.filter fun c => !(c == '$') && !(c == '.')⟩

/-- Value of the maximal leading run of decimal digits, continuing an
accumulator; none when no digit has been read. -/
def digitsVal : List Char → Option Nat → Option Nat
  | [], acc => acc
  | c :: cs, acc =>
    if c.isDigit then digitsVal cs (some ((acc.getD 0) * 10 + (c.toNat - '0'.toNat)))
    else acc

/-- Model of Number.parseInt with radix 10: skip leading whitespace, read an
optional sign and then a maximal run of decimal digits; none models NaN. -/
def jsParseInt (s : String) : Option Int :=
  match s.data.dropWhile Char.isWhitespace with
  | '-' :: rest => (digitsVal rest none).map fun n => -(n : Int)
  | '+' :: rest => (digitsVal rest none).map fun n => (n : Int)
  | cs => (digitsVal cs none).map fun n => (n : Int)

/-- Port of parsePriceString: a numeric field is returned as is, a falsy
(empty) string gives 0, otherwise the cleaned string is parsed and a NaN
parse falls back to 0. -/
def parsePriceString : PriceInput → Int
  | .num n => n
  | .str s => if s == "" then 0 else (jsParseInt (cleanPrice s)).getD 0

/-- Product record as consumed by the catalog page, after stock
normalization coerced the stock cell to a number. -/
structure Product where
  sku : String
  nombre : String
  categoria : String
  marca : String
  precio3 : PriceInput
  stock : Int
  nivelDeJuego : String
  anio : String
deriving DecidableEq

/-- Price sort order select: default, ascending or descending. -/
inductive PriceSortOrder where
  | default
  | asc
  | desc
deriving DecidableEq

/-- Filter state owned by the page: search box, the two facet selects, the
out-of-stock toggle and the price sort order. -/
structure FilterState where
  searchTerm : String
  selectedCategory : String
  selectedBrand : String
  showOutOfStock : Bool
  priceSort : PriceSortOrder
deriving DecidableEq

/-- Reference price of the price comparator: parsed raw price, doubled for a
minimum-quantity accessory. -/
def getReferencePrice (isMinQuantityAccessory : Product → Bool) (product : Product) : Int :=
  let basePrice := parsePriceString product.precio3
  if isMinQuantityAccessory product then basePrice * 2 else basePrice

/-- Stage 1 of filteredProducts: keep products whose SKU is truthy and not
whitespace only. -/
def validSkuFilter (l : List Product) : List Product :=
  l.filter fun p => !(p.sku == "") && !(jsTrim p.sku == "")

/-- Stage 2: when out-of-stock products are hidden, keep positive stock only.
The stock field is already numeric here, so the typeof guard of the source is
the identity. -/
def stockFilter (showOutOfStock : Bool) (l : List Product) : List Product :=
  if !showOutOfStock then l.filter (fun p => p.stock > 0) else l

/-- Stage 3: category facet filter. -/
def categoryFilter (selectedCategory : String) (l : List Product) : List Product :=
  if selectedCategory != "Todos" then l.filter (fun p => p.categoria == selectedCategory) else l

/-- Stage 4: brand facet filter. -/
def brandFilter (selectedBrand : String) (l : List Product) : List Product :=
  if selectedBrand != "Todos" then l.filter (fun p => p.marca == selectedBrand) else l

/-- Name words used by the search: lower-cased name with the punctuation
characters - / ( ) replaced by spaces, split at whitespace. -/
def normalizedNameWords (p : Product) : List String :=
  splitWs ⟨(jsToLower p.nombre).data.map fun c =>
    if c == '-' || c == '/' || c == '(' || c == ')' then ' ' else c⟩

/-- Search predicate of stage 5: every search term must hit the SKU, the
start of a name word, the game level or the year. -/
def searchKeep (searchTerm : String) (p : Product) : Bool :=
  (splitWs (jsTrim (jsToLower searchTerm))).all fun term =>
    strIncludes (jsToLower p.sku) term ||
    (normalizedNameWords p).any (fun word => chStarts term.data word.data) ||
    strIncludes (jsToLower p.nivelDeJuego) term ||
    strIncludes (jsToLower p.anio) term

/-- Stage 5: applied only when the search box is truthy (non-empty). -/
def searchFilter (searchTerm : String) (l : List Product) : List Product :=
  if searchTerm != "" then l.filter (searchKeep searchTerm) else l

/-- Comparator order of the ascending price sort: a may stay before b when
the comparator priceA - priceB is nonpositive. -/
def ascLE (acc : Product → Bool) (a b : Product) : Prop :=
  getReferencePrice acc a ≤ getReferencePrice acc b

/-- Comparator order of the descending price sort: a may stay before b when
the comparator priceB - priceA is nonpositive. -/
def descLE (acc : Product → Bool) (a b : Product) : Prop :=
  getReferencePrice acc b ≤ getReferencePrice acc a

instance (acc : Product → Bool) : DecidableRel (ascLE acc) :=
  fun a b => Int.decLe (getReferencePrice acc a) (getReferencePrice acc b)

instance (acc : Product → Bool) : DecidableRel (descLE acc) :=
  fun a b => Int.decLe (getReferencePrice acc b) (getReferencePrice acc a)

instance (acc : Product → Bool) : IsTotal Product (ascLE acc) :=
  ⟨fun a b => Int.le_total (getReferencePrice acc a) (getReferencePrice acc b)⟩

instance (acc : Product → Bool) : IsTotal Product (descLE acc) :=
  ⟨fun a b => Int.le_total (getReferencePrice acc b) (getReferencePrice acc a)⟩

instance (acc : Product → Bool) : IsTrans Product (ascLE acc) :=
  ⟨fun _ _ _ h h2 => Int.le_trans h h2⟩

instance (acc : Product → Bool) : IsTrans Product (descLE acc) :=
  ⟨fun _ _ _ h h2 => Int.le_trans h2 h⟩

/-- Stage 6: the stable comparator sort by reference price. A stable
insertion sort models the ECMAScript stable Array sort with comparator
priceA - priceB (ascending) or priceB - priceA (descending). -/
def sortStage (acc : Product → Bool) : PriceSortOrder → List Product → List Product
  | .default, l => l
  | .asc, l => l.insertionSort (ascLE acc)
  | .desc, l => l.insertionSort (descLE acc)

/-- Port of the filteredProducts memo: the six stages in source order. -/
def filteredProducts (products : List Product) (fs : FilterState)
    (isMinQuantityAccessory : Product → Bool) : List Product :=
  sortStage isMinQuantityAccessory fs.priceSort
    (searchFilter fs.searchTerm
      (brandFilter fs.selectedBrand
        (categoryFilter fs.selectedCategory
          (stockFilter fs.showOutOfStock
            (validSkuFilter products)))))

/-- Insertion-order deduplication performed by spreading a JavaScript Set. -/
def jsSetSpreadAux (seen : List String) : List String → List String
  | [] => []
  | a :: l =>
    if seen.contains a then jsSetSpreadAux seen l
    else a :: jsSetSpreadAux (a :: seen) l

/-- Spread of a JavaScript Set built from a list: first occurrences, in
order. -/
def jsSetSpread (l : List String) : List String := jsSetSpreadAux [] l

/-- Port of the categories memo. -/
def categories (products : List Product) : List String :=
  "Todos" ::
    jsSetSpread ((products.filter fun p => !(p.sku == "") && !(jsTrim p.sku == "")).map
      Product.categoria)

/-- Port of the availableBrands memo. -/
def availableBrands (products : List Product) (selectedCategory : String) : List String :=
  if selectedCategory != "Todos" then
    "Todos" ::
      jsSetSpread
        (((products.filter fun p =>
          p.categoria == selectedCategory && (!(p.sku == "") && !(jsTrim p.sku == ""))).map
            Product.marca).filter fun m => !(m == ""))
  else
    "Todos" ::
      jsSetSpread
        (((products.filter fun p => !(p.sku == "") && !(jsTrim p.sku == "")).map
          Product.marca).filter fun m => !(m == ""))

/-- Stock cell as delivered by the sheet: a finite number, the numeric NaN,
or a value that is not a number at all (absent, or of another type). -/
inductive RawStock where
  | num (n : Int)
  | nan
  | notNum
deriving DecidableEq

/-- Product record before stock normalization. -/
structure RawProduct where
  sku : String
  nombre : String
  categoria : String
  marca : String
  precio3 : PriceInput
  stock : RawStock
  nivelDeJuego : String
  anio : String
deriving DecidableEq

/-- Stock coercion inside normalizeProducts: a value that passes the typeof
number and not-NaN guards is kept, anything else becomes 0. -/
def normalizeStock : RawStock → Int
  | .num n => n
  | .nan => 0
  | .notNum => 0

/-- Normalization of one record: spread the record, coercing stock. -/
def normalizeProduct (p : RawProduct) : Product :=
  { sku := p.sku, nombre := p.nombre, categoria := p.categoria, marca := p.marca,
    precio3 := p.precio3, stock := normalizeStock p.stock,
    nivelDeJuego := p.nivelDeJuego, anio := p.anio }

/-- Port of normalizeProducts. -/
def normalizeProducts (productsData : List RawProduct) : List Product :=
  productsData.map normalizeProduct

/-- Port of the category select onChange handler: set the category, reset
the brand to the sentinel and clear the search box. -/
def onCategoryChange (fs : FilterState) (value : String) : FilterState :=
  { fs with selectedCategory := value, selectedBrand := "Todos", searchTerm := "" }

/-! Concrete records used by the scenario claims and by witnesses. -/

/-- Scenario product A1. -/
def pA1 : Product :=
  { sku := "A1", nombre := "Paleta Pro", categoria := "Paletas", marca := "X",
    precio3 := .str ("$1.000"), stock := 5, nivelDeJuego := "avanzado", anio := "2026" }

/-- Scenario product with an empty SKU; its unspecified fields are modelled
as absent (empty) and its absent stock as the normalized 0. -/
def pBroken : Product :=
  { sku := "", nombre := "broken", categoria := "", marca := "",
    precio3 := .str (""), stock := 0, nivelDeJuego := "", anio := "" }

/-- Scenario product B2, out of stock. -/
def pB2 : Product :=
  { sku := "B2", nombre := "Pelota Mix", categoria := "Pelotas", marca := "Y",
    precio3 := .str ("$200"), stock := 0, nivelDeJuego := "", anio := "2025" }

/-- Scenario filter state: hide out of stock, search avanzado, both facet
selects at the sentinel, no price sort. -/
def fs0 : FilterState :=
  { searchTerm := "avanzado", selectedCategory := "Todos",
    selectedBrand := "Todos", showOutOfStock := false, priceSort := .default }

/-- Product with raw price 500, for the reference price claim. -/
def p500 : Product :=
  { sku := "C3", nombre := "Grip", categoria := "Accesorios", marca := "Z",
    precio3 := .str ("$500"), stock := 3, nivelDeJuego := "", anio := "" }

/-- Product whose level matches only avanzado and whose year matches only
2026, for the two-term search claim. -/
def pLY : Product :=
  { sku := "Z9", nombre := "Paleta", categoria := "Paletas", marca := "W",
    precio3 := .str ("$900"), stock := 1, nivelDeJuego := "avanzado", anio := "2026" }

/-- Raw record with a negative numeric stock cell. -/
def rawNeg : RawProduct :=
  { sku := "N1", nombre := "Neg", categoria := "C", marca := "M",
    precio3 := .str ("$1"), stock := .num (-3), nivelDeJuego := "", anio := "" }

/-- Raw record whose stock cell is the numeric NaN. -/
def rawNan : RawProduct :=
  { sku := "N2", nombre := "Nan", categoria := "C", marca := "M",
    precio3 := .str ("$1"), stock := .nan, nivelDeJuego := "", anio := "" }

/-- Raw record with stock cell 7. -/
def rawNum7 : RawProduct :=
  { sku := "N3", nombre := "Seven", categoria := "C", marca := "M",
    precio3 := .str ("$1"), stock := .num 7, nivelDeJuego := "", anio := "" }

/-- Accessory predicate used by closed witness statements. -/
def demoAcc : Product → Bool := fun _ => false

/-! Membership helpers for the pipeline stages. -/

theorem sortStage_mem {acc : Product → Bool} {ord : PriceSortOrder} {l : List Product}
    {p : Product} (h : p ∈ sortStage acc ord l) : p ∈ l := by
  cases ord with
  | default => exact h
  | asc => exact (List.mem_insertionSort _).mp h
  | desc => exact (List.mem_insertionSort _).mp h

theorem searchFilter_mem {s : String} {l : List Product} {p : Product}
    (h : p ∈ searchFilter s l) : p ∈ l := by
  unfold searchFilter at h
  split at h
  · exact List.mem_of_mem_filter h
  · exact h

theorem brandFilter_mem {b : String} {l : List Product} {p : Product}
    (h : p ∈ brandFilter b l) : p ∈ l := by
  unfold brandFilter at h
  split at h
  · exact List.mem_of_mem_filter h
  · exact h

theorem categoryFilter_mem {c : String} {l : List Product} {p : Product}
    (h : p ∈ categoryFilter c l) : p ∈ l := by
  unfold categoryFilter at h
  split at h
  · exact List.mem_of_mem_filter h
  · exact h

theorem stockFilter_mem {b : Bool} {l : List Product} {p : Product}
    (h : p ∈ stockFilter b l) : p ∈ l := by
  unfold stockFilter at h
  split at h
  · exact List.mem_of_mem_filter h
  · exact h

theorem validSkuFilter_mem {l : List Product} {p : Product}
    (h : p ∈ validSkuFilter l) : p ∈ l :=
  List.mem_of_mem_filter h

/-! Claim theorems. -/

/-- C1: for the scenario product list and the filter state with
showOutOfStock off and search avanzado, the pipeline returns exactly the
one-element list containing the product with SKU A1, whatever the accessory
predicate is. -/
theorem filteredProducts_scenario :
    ∀ acc : Product → Bool, filteredProducts [pA1, pBroken, pB2] fs0 acc = [pA1] :=
  fun _ => rfl

/-- C3: the reference price equals the parsed raw price, doubled exactly
when the accessory predicate holds; the string dollar 1.234 parses to 1234,
an unparsable cleaned string yields 0, and a raw price of dollar 500 gives
reference price 1000 for an accessory and 500 otherwise. -/
theorem getReferencePrice_spec (acc : Product → Bool) (p : Product) :
    getReferencePrice acc p =
      (if acc p then parsePriceString p.precio3 * 2 else parsePriceString p.precio3) ∧
    parsePriceString (.str ("$1.234")) = 1234 ∧
    (∀ s : String, jsParseInt (cleanPrice s) = none → parsePriceString (.str s) = 0) ∧
    (∀ q : Product, q.precio3 = .str ("$500") →
      getReferencePrice acc q = if acc q then 1000 else 500) := by
  refine ⟨rfl, rfl, ?_, ?_⟩
  · intro s hs
    simp only [parsePriceString]
    split
    · rfl
    · rw [hs]; rfl
  · intro q hq
    unfold getReferencePrice
    rw [hq]
    split <;> rfl

/-- Witness for the reference price claim at concrete inputs. -/
theorem getReferencePrice_spec_witness :
    parsePriceString (.str ("abc")) = 0 ∧
    getReferencePrice (fun _ => true) p500 = 1000 ∧
    getReferencePrice demoAcc p500 = 500 :=
  ⟨(getReferencePrice_spec demoAcc p500).2.2.1 ("abc") (by decide),
   (getReferencePrice_spec (fun _ => true) p500).2.2.2 p500 rfl,
   (getReferencePrice_spec demoAcc p500).2.2.2 p500 rfl⟩

/-- C7: with showOutOfStock off every product of the filtered result has
positive stock, and with showOutOfStock on the stock stage keeps every
product. -/
theorem stockFilter_spec :
    (∀ (products : List Product) (fs : FilterState) (acc : Product → Bool) (p : Product),
      fs.showOutOfStock = false → p ∈ filteredProducts products fs acc → p.stock > 0) ∧
    (∀ l : List Product, stockFilter true l = l) := by
  constructor
  · intro products fs acc p hflag hp
    unfold filteredProducts at hp
    have h1 := categoryFilter_mem (brandFilter_mem (searchFilter_mem (sortStage_mem hp)))
    rw [stockFilter, hflag] at h1
    simp only [Bool.not_false, if_true] at h1
    exact of_decide_eq_true (List.mem_filter.mp h1).2
  · intro l
    rfl

/-- Witness for the stock claim: the scenario run keeps only positive
stock, and the stage with the flag on is the identity on a concrete list. -/
theorem stockFilter_spec_witness :
    pA1.stock > 0 ∧ stockFilter true [pB2] = [pB2] :=
  ⟨stockFilter_spec.1 [pA1, pBroken, pB2] fs0 demoAcc pA1 rfl (by decide),
   stockFilter_spec.2 [pB2]⟩

/-- C8: every element of the filtered result is an element of the input
product list; the pipeline never fabricates a product. -/
theorem filteredProducts_subset (products : List Product) (fs : FilterState)
    (acc : Product → Bool) (p : Product) (hp : p ∈ filteredProducts products fs acc) :
    p ∈ products :=
  validSkuFilter_mem
    (stockFilter_mem
      (categoryFilter_mem
        (brandFilter_mem (searchFilter_mem (sortStage_mem hp)))))

/-- Witness for the subset claim at the scenario input. -/
theorem filteredProducts_subset_witness : pA1 ∈ [pA1, pBroken, pB2] :=
  filteredProducts_subset [pA1, pBroken, pB2] fs0 demoAcc pA1 (by decide)

/-- C10: changing the category sets the new value, resets the brand to the
sentinel, clears the search text, and leaves the out-of-stock flag and the
price sort untouched. -/
theorem onCategoryChange_frame (fs : FilterState) (value : String) :
    (onCategoryChange fs value).selectedCategory = value ∧
    (onCategoryChange fs value).selectedBrand = "Todos" ∧
    (onCategoryChange fs value).searchTerm = "" ∧
    (onCategoryChange fs value).showOutOfStock = fs.showOutOfStock ∧
    (onCategoryChange fs value).priceSort = fs.priceSort :=
  ⟨rfl, rfl, rfl, rfl, rfl⟩

/-- C5 counterexample: a raw record with numeric stock -3 keeps its negative
stock after normalization, so normalized stock is not always non-negative. -/
theorem normalizeProduct_nonneg_counterexample :
    ¬ (0 ≤ (normalizeProduct rawNeg).stock) := by decide

/-- C5 amended: normalization keeps a numeric stock cell unchanged (even a
negative one), coerces NaN and non-numeric stock cells to 0, and passes all
other fields through unchanged; the result is non-negative whenever the
numeric input is. -/
theorem normalizeProduct_spec_amended (rp : RawProduct) :
    (∀ n : Int, rp.stock = RawStock.num n → (normalizeProduct rp).stock = n) ∧
    ((rp.stock = RawStock.nan ∨ rp.stock = RawStock.notNum) →
      (normalizeProduct rp).stock = 0) ∧
    (∀ n : Int, rp.stock = RawStock.num n → 0 ≤ n → 0 ≤ (normalizeProduct rp).stock) ∧
    (normalizeProduct rp).sku = rp.sku ∧
    (normalizeProduct rp).nombre = rp.nombre ∧
    (normalizeProduct rp).categoria = rp.categoria ∧
    (normalizeProduct rp).marca = rp.marca ∧
    (normalizeProduct rp).precio3 = rp.precio3 ∧
    (normalizeProduct rp).nivelDeJuego = rp.nivelDeJuego ∧
    (normalizeProduct rp).anio = rp.anio := by
  refine ⟨?_, ?_, ?_, rfl, rfl, rfl, rfl, rfl, rfl, rfl⟩
  · intro n hn
    simp [normalizeProduct, normalizeStock, hn]
  · rintro (hn | hn) <;> simp [normalizeProduct, normalizeStock, hn]
  · intro n hn hnn
    simp [normalizeProduct, normalizeStock, hn]
    exact hnn

/-- Witness for the amended normalization claim at concrete records. -/
theorem normalizeProduct_spec_amended_witness :
    (normalizeProduct rawNan).stock = 0 ∧ (normalizeProduct rawNum7).stock = 7 :=
  ⟨(normalizeProduct_spec_amended rawNan).2.1 (Or.inl rfl),
   (normalizeProduct_spec_amended rawNum7).1 7 rfl⟩

/-! Search with an empty or whitespace-only box. -/

theorem chIncl_nil (h : List Char) : chIncl [] h = true := by
  cases h <;> simp [chIncl, chStarts]

theorem strIncludes_nil (hay : String) : strIncludes hay ("") = true :=
  chIncl_nil hay.data

theorem toLower_of_isWhitespace {c : Char} (h : c.isWhitespace = true) : c.toLower = c := by
  simp [Char.isWhitespace] at h
  rcases h with ((h | h) | h) | h <;> subst h <;> decide

theorem jsTrim_eq_empty {s : String} (h : ∀ c ∈ s.data, c.isWhitespace) : jsTrim s = "" := by
  have hd : s.data.dropWhile Char.isWhitespace = [] :=
    List.dropWhile_eq_nil_iff.mpr h
  unfold jsTrim
  rw [hd]
  rfl

theorem searchKeep_of_whitespace (s : String) (p : Product)
    (h : ∀ c ∈ s.data, c.isWhitespace) : searchKeep s p = true := by
  have hlow : ∀ c ∈ (jsToLower s).data, c.isWhitespace := by
    intro c hc
    simp only [jsToLower] at hc
    rcases List.mem_map.mp hc with ⟨c0, hc0, rfl⟩
    rw [toLower_of_isWhitespace (h c0 hc0)]
    exact h c0 hc0
  have htrim : jsTrim (jsToLower s) = "" := jsTrim_eq_empty hlow
  unfold searchKeep
  rw [htrim]
  have hsplit : splitWs ("") = [""] := rfl
  rw [hsplit]
  simp [strIncludes_nil]

/-- C9: the search stage with an empty search box keeps every product, and
the same holds for a search box holding only whitespace, since the single
trimmed term is then empty and matches every SKU. -/
theorem search_empty_noop :
    (∀ l : List Product, searchFilter ("") l = l) ∧
    (∀ (s : String) (l : List Product),
      (∀ c ∈ s.data, c.isWhitespace) → searchFilter s l = l) := by
  have hempty : ∀ l : List Product, searchFilter ("") l = l := fun l => rfl
  refine ⟨hempty, ?_⟩
  intro s l hws
  by_cases hs : s = ""
  · subst hs
    exact hempty l
  · have hcond : (s != "") = true := bne_iff_ne.mpr hs
    unfold searchFilter
    rw [hcond]
    simp only [if_true]
    exact List.filter_eq_self.mpr fun p _ => searchKeep_of_whitespace s p hws

/-- Witness for the empty-search claim at a whitespace-only search box. -/
theorem search_empty_noop_witness : searchFilter (" ") [pA1] = [pA1] :=
  search_empty_noop.2 (" ") [pA1] (by decide)

/-! Facet derivations: first-seen deduplication. -/

/-- De-duplication keeping the first occurrence of each value, written the
way the specification describes the facet lists. -/
def dedupFirst : List String → List String
  | [] => []
  | a :: l => a :: dedupFirst (l.filter fun b => !(b == a))
termination_by l => l.length
decreasing_by
  exact Nat.lt_succ_of_le (List.length_filter_le _ _)

theorem jsSetSpreadAux_eq (l : List String) : ∀ seen : List String,
    jsSetSpreadAux seen l = dedupFirst (l.filter fun b => !(seen.contains b)) := by
  induction l with
  | nil => intro seen; simp [jsSetSpreadAux, dedupFirst]
  | cons a l ih =>
    intro seen
    cases h : seen.contains a with
    | true =>
      simp only [jsSetSpreadAux, h, if_true, List.filter_cons, Bool.not_true,
        Bool.false_eq_true, if_false]
      exact ih seen
    | false =>
      simp only [jsSetSpreadAux, h, Bool.false_eq_true, if_false, List.filter_cons,
        Bool.not_false, if_true]
      rw [ih (a :: seen), dedupFirst, List.filter_filter]
      congr 2
      refine List.filter_congr fun b _ => ?_
      simp only [List.contains_cons, Bool.not_or, Bool.and_comm]

theorem jsSetSpread_eq (l : List String) : jsSetSpread l = dedupFirst l := by
  unfold jsSetSpread
  rw [jsSetSpreadAux_eq]
  congr 1
  simp

/-- Pointwise form of the validity filter: keeping a truthy, non-whitespace
SKU is the same as keeping a SKU whose trim is non-empty. -/
theorem validSku_eq (p : Product) :
    (!(p.sku == "") && !(jsTrim p.sku == "")) = (jsTrim p.sku != "") := by
  cases h : p.sku == "" with
  | true =>
    have : p.sku = "" := beq_iff_eq.mp h
    rw [this]
    rfl
  | false =>
    simp only [Bool.not_false, Bool.true_and]
    rfl

/-- C6: both facet lists are the sentinel followed by first-seen
de-duplicated values over validity-filtered products (stock plays no role:
neither derivation consumes the out-of-stock flag); the brand list excludes
falsy brands and is scoped to the selected category when one is active. -/
theorem facets_spec (products : List Product) (selectedCategory : String) :
    categories products =
      "Todos" ::
        dedupFirst ((products.filter fun p => jsTrim p.sku != "").map Product.categoria) ∧
    availableBrands products selectedCategory =
      "Todos" ::
        dedupFirst
          (((if selectedCategory = "Todos" then products.filter fun p => jsTrim p.sku != ""
             else (products.filter fun p => jsTrim p.sku != "").filter fun p =>
               p.categoria == selectedCategory).map Product.marca).filter fun b => b != "") := by
  constructor
  · unfold categories
    rw [jsSetSpread_eq, List.filter_congr fun p _ => validSku_eq p]
  · by_cases hsel : selectedCategory = "Todos"
    · subst hsel
      unfold availableBrands
      rw [if_neg (by decide), if_pos rfl]
      rw [jsSetSpread_eq, List.filter_congr fun p _ => validSku_eq p]
      rfl
    · have hcond : (selectedCategory != "Todos") = true := bne_iff_ne.mpr hsel
      have hpt : (products.filter fun p =>
          p.categoria == selectedCategory && (!(p.sku == "") && !(jsTrim p.sku == ""))) =
          products.filter fun p => p.categoria == selectedCategory && (jsTrim p.sku != "") :=
        List.filter_congr fun p _ => by rw [validSku_eq p]
      unfold availableBrands
      rw [if_pos hcond, if_neg hsel, jsSetSpread_eq, List.filter_filter, hpt]
      rfl

/-! Characterization of the search match. -/

theorem chStarts_iff : ∀ n h : List Char, chStarts n h = true ↔ ∃ u, h = n ++ u
  | [], h => by simp [chStarts]
  | a :: as, [] => by simp [chStarts]
  | a :: as, b :: bs => by
    simp only [chStarts, Bool.and_eq_true, beq_iff_eq]
    rw [chStarts_iff as bs]
    constructor
    · rintro ⟨rfl, u, rfl⟩
      exact ⟨u, rfl⟩
    · rintro ⟨u, hu⟩
      injection hu with h1 h2
      exact ⟨h1.symm, u, h2⟩

theorem chIncl_iff : ∀ n h : List Char, chIncl n h = true ↔ ∃ t u, h = t ++ n ++ u
  | n, [] => by
    simp only [chIncl]
    rw [chStarts_iff n []]
    constructor
    · rintro ⟨u, hu⟩
      exact ⟨[], u, by simpa using hu⟩
    · rintro ⟨t, u, htu⟩
      have h2 : (t ++ n) ++ u = [] := htu.symm
      rw [List.append_eq_nil, List.append_eq_nil] at h2
      obtain ⟨⟨rfl, rfl⟩, rfl⟩ := h2
      exact ⟨[], rfl⟩
  | n, b :: bs => by
    simp only [chIncl, Bool.or_eq_true]
    rw [chStarts_iff n (b :: bs), chIncl_iff n bs]
    constructor
    · rintro (⟨u, hu⟩ | ⟨t, u, htu⟩)
      · exact ⟨[], u, by simpa using hu⟩
      · exact ⟨b :: t, u, by simp [htu]⟩
    · rintro ⟨t, u, htu⟩
      cases t with
      | nil => exact Or.inl ⟨u, by simpa using htu⟩
      | cons x ts =>
        rw [List.cons_append, List.cons_append] at htu
        injection htu with h1 h2
        exact Or.inr ⟨ts, u, h2⟩

/-- Search match as the specification words it: the term is a substring of
the lower-cased SKU, a starting segment of some word of the normalized name,
a substring of the lower-cased game level, or a substring of the lower-cased
year. -/
def specTermMatches (p : Product) (term : String) : Prop :=
  (∃ t u, (jsToLower p.sku).data = t ++ term.data ++ u) ∨
  (∃ w ∈ normalizedNameWords p, ∃ u, w.data = term.data ++ u) ∨
  (∃ t u, (jsToLower p.nivelDeJuego).data = t ++ term.data ++ u) ∨
  (∃ t u, (jsToLower p.anio).data = t ++ term.data ++ u)

/-- C2: for a non-empty search text, the search stage keeps a product
exactly when every whitespace-separated term of the lower-cased trimmed
text matches at least one of the four fields; in particular a product whose
level carries avanzado and whose year carries 2026 passes the two-term
search even though no single field matches both terms. -/
theorem searchKeep_spec :
    (∀ (p : Product) (s : String), s ≠ "" →
      (searchKeep s p = true ↔
        ∀ term ∈ splitWs (jsTrim (jsToLower s)), specTermMatches p term)) ∧
    searchKeep ("avanzado 2026") pLY = true := by
  constructor
  · intro p s _
    simp only [searchKeep, List.all_eq_true, strIncludes, Bool.or_eq_true, chIncl_iff,
      List.any_eq_true, chStarts_iff, specTermMatches, or_assoc]
  · decide

/-- Witness for the search characterization at a concrete product and
search text. -/
theorem searchKeep_spec_witness :
    searchKeep ("avanzado") pA1 = true ↔
      ∀ term ∈ splitWs (jsTrim (jsToLower ("avanzado"))), specTermMatches pA1 term :=
  searchKeep_spec.1 pA1 ("avanzado") (by decide)

/-! Stability and ordering facts about the price sort. -/

/-- Strict version of the descending comparator order. -/
def descLT (acc : Product → Bool) (a b : Product) : Prop :=
  getReferencePrice acc b < getReferencePrice acc a

instance (acc : Product → Bool) : IsAntisymm Product (descLT acc) :=
  ⟨fun _ _ h1 h2 => absurd (lt_trans h1 h2) (lt_irrefl _)⟩

theorem filter_orderedInsert_key (r : Product → Product → Prop) [DecidableRel r]
    (key : Product → Int) (H : ∀ a b, ¬ r a b → key a ≠ key b) (v : Int) (a : Product) :
    ∀ l : List Product,
      ((l.orderedInsert r a).filter fun p => key p == v) =
        ((a :: l).filter fun p => key p == v)
  | [] => rfl
  | b :: bs => by
    by_cases hr : r a b
    · rw [List.orderedInsert, if_pos hr]
    · rw [List.orderedInsert, if_neg hr]
      have hne := H a b hr
      rw [List.filter_cons, filter_orderedInsert_key r key H v a bs]
      by_cases hb : key b = v
      · have ha : ¬ key a = v := fun ha => hne (ha.trans hb.symm)
        simp [List.filter_cons, hb, ha]
      · by_cases ha : key a = v
        · simp [List.filter_cons, hb, ha]
        · simp [List.filter_cons, hb, ha]

theorem filter_insertionSort_key (r : Product → Product → Prop) [DecidableRel r]
    (key : Product → Int) (H : ∀ a b, ¬ r a b → key a ≠ key b) (v : Int) :
    ∀ l : List Product,
      ((l.insertionSort r).filter fun p => key p == v) = l.filter fun p => key p == v
  | [] => rfl
  | a :: l => by
    rw [List.insertionSort, filter_orderedInsert_key r key H v a (l.insertionSort r)]
    simp only [List.filter_cons]
    rw [filter_insertionSort_key r key H v l]

theorem ascLE_key_ne (acc : Product → Bool) :
    ∀ a b : Product, ¬ ascLE acc a b → getReferencePrice acc a ≠ getReferencePrice acc b :=
  fun _ _ h heq => h (le_of_eq heq)

theorem descLE_key_ne (acc : Product → Bool) :
    ∀ a b : Product, ¬ descLE acc a b → getReferencePrice acc a ≠ getReferencePrice acc b :=
  fun _ _ h heq => h (le_of_eq heq.symm)

theorem sortStage_filter_key (acc : Product → Bool) (ord : PriceSortOrder)
    (l : List Product) (v : Int) :
    ((sortStage acc ord l).filter fun p => getReferencePrice acc p == v) =
      l.filter fun p => getReferencePrice acc p == v := by
  cases ord with
  | default => rfl
  | asc => exact filter_insertionSort_key (ascLE acc) _ (ascLE_key_ne acc) v l
  | desc => exact filter_insertionSort_key (descLE acc) _ (descLE_key_ne acc) v l

/-- C4: the price-sort stage is a stable sort by reference price: it is
idempotent in either direction, the subsequence at any fixed reference
price is untouched (ties retain their prior order), sorting ascending and
then descending reverses a list of pairwise-distinct reference prices, and
even after the double sort equal-priced items sit in input order. -/
theorem sortStage_stable_spec (acc : Product → Bool) :
    (∀ (ord : PriceSortOrder) (l : List Product),
      sortStage acc ord (sortStage acc ord l) = sortStage acc ord l) ∧
    (∀ (ord : PriceSortOrder) (l : List Product) (v : Int),
      ((sortStage acc ord l).filter fun p => getReferencePrice acc p == v) =
        l.filter fun p => getReferencePrice acc p == v) ∧
    (∀ l : List Product,
      (l.Pairwise fun a b => getReferencePrice acc a ≠ getReferencePrice acc b) →
      sortStage acc .desc (sortStage acc .asc l) = (sortStage acc .asc l).reverse) ∧
    (∀ (l : List Product) (v : Int),
      ((sortStage acc .desc (sortStage acc .asc l)).filter fun p =>
          getReferencePrice acc p == v) =
        l.filter fun p => getReferencePrice acc p == v) := by
  have hsym : ∀ {a b : Product},
      getReferencePrice acc a ≠ getReferencePrice acc b →
        getReferencePrice acc b ≠ getReferencePrice acc a := fun h => h.symm
  refine ⟨?_, ?_, ?_, ?_⟩
  · intro ord l
    cases ord with
    | default => rfl
    | asc => exact List.Sorted.insertionSort_eq (List.sorted_insertionSort (ascLE acc) l)
    | desc => exact List.Sorted.insertionSort_eq (List.sorted_insertionSort (descLE acc) l)
  · exact sortStage_filter_key acc
  · intro l hl
    show (l.insertionSort (ascLE acc)).insertionSort (descLE acc) =
      (l.insertionSort (ascLE acc)).reverse
    have hperm : (l.insertionSort (ascLE acc)).Perm l := List.perm_insertionSort _ l
    have hnem : (l.insertionSort (ascLE acc)).Pairwise
        (fun a b => getReferencePrice acc a ≠ getReferencePrice acc b) :=
      (hperm.pairwise_iff hsym).mpr hl
    have hsm : (l.insertionSort (ascLE acc)).Sorted (ascLE acc) :=
      List.sorted_insertionSort (ascLE acc) l
    have hstrict : (l.insertionSort (ascLE acc)).Pairwise
        (fun a b => getReferencePrice acc a < getReferencePrice acc b) :=
      (List.Pairwise.and hsm hnem).imp fun h => lt_of_le_of_ne h.1 h.2
    have hpd : ((l.insertionSort (ascLE acc)).insertionSort (descLE acc)).Perm
        (l.insertionSort (ascLE acc)) := List.perm_insertionSort _ _
    have hsd : ((l.insertionSort (ascLE acc)).insertionSort (descLE acc)).Sorted
        (descLE acc) := List.sorted_insertionSort (descLE acc) _
    have hned : ((l.insertionSort (ascLE acc)).insertionSort (descLE acc)).Pairwise
        (fun a b => getReferencePrice acc a ≠ getReferencePrice acc b) :=
      (hpd.pairwise_iff hsym).mpr hnem
    have hstrictd : ((l.insertionSort (ascLE acc)).insertionSort (descLE acc)).Sorted
        (descLT acc) :=
      (List.Pairwise.and hsd hned).imp fun h => lt_of_le_of_ne h.1 h.2.symm
    have hrev : ((l.insertionSort (ascLE acc)).reverse).Sorted (descLT acc) :=
      List.pairwise_reverse.mpr hstrict
    exact List.eq_of_perm_of_sorted
      (hpd.trans (List.reverse_perm (l.insertionSort (ascLE acc))).symm) hstrictd hrev
  · intro l v
    show ((sortStage acc .desc (sortStage acc .asc l)).filter fun p =>
        getReferencePrice acc p == v) = l.filter fun p => getReferencePrice acc p == v
    rw [sortStage_filter_key acc .desc (sortStage acc .asc l) v,
      sortStage_filter_key acc .asc l v]

/-- Witness for the stable sort claim: a concrete list with distinct
reference prices is reversed by the descending sort of its ascending
sort. -/
theorem sortStage_stable_spec_witness :
    sortStage demoAcc .desc (sortStage demoAcc .asc [pB2, pA1]) =
      (sortStage demoAcc .asc [pB2, pA1]).reverse :=
  (sortStage_stable_spec demoAcc).2.2.1 [pB2, pA1] (by
    refine List.Pairwise.cons ?_ (List.pairwise_singleton _ _)
    intro b hb
    rw [List.mem_singleton] at hb
    subst hb
    decide)

end Catalog
